import Mathlib

/-!
Verification of the shared helper layer of a member-profile CRUD service.

The helpers are embedded shallowly: each asynchronous store call is modelled
by a value describing the outcome the store passes to its callback
(an error, or a possibly-null result), and each helper becomes a pure
function from that outcome to an `Except` value.  JavaScript truthiness on
strings (`""` is falsy) and on option-like values (`null`/`undefined` are
falsy) is modelled explicitly where the source relies on it.  String
primitives (`toLowerCase`, `trim`, `split(',')`) are modelled by structural
functions over the character list so that concrete instances evaluate.
-/

/-- Models JavaScript `String.prototype.toLowerCase`: lower-case every
character. -/
def jsToLower (s : String) : String := ⟨s.data.map Char.toLower⟩

/-- Models JavaScript `String.prototype.trim`: drop whitespace from both
ends. -/
def jsTrim (s : String) : String :=
  ⟨((s.data.dropWhile fun c => c.isWhitespace).reverse.dropWhile fun c => c.isWhitespace).reverse⟩

/-- Splits a character list at commas, accumulating the current (reversed)
segment; models the loop of `String.prototype.split(',')`. -/
def splitCommaAux : List Char → List Char → List String
  | [], acc => [⟨acc.reverse⟩]
  | c :: rest, acc =>
      if c = ',' then ⟨acc.reverse⟩ :: splitCommaAux rest [] else splitCommaAux rest (c :: acc)

/-- Models JavaScript `s.split(',')`. -/
def jsSplitComma (s : String) : List String := splitCommaAux s.data []

/-- Errors surfaced by the helper layer: store errors propagated verbatim
(`store`), `NotFoundError` for empty unique-key lookups, and
`BadRequestError` for malformed caller input. -/
inductive ApiError (ε : Type) where
  | store (e : ε)
  | notFound (msg : String)
  | badRequest (msg : String)
deriving DecidableEq

/-- Outcome a document-store call passes to its `exec` callback: either an
error, or a result that may be null (`none`). -/
def StoreResp (ε α : Type) : Type := Except ε (Option α)

/-- Embeds `getEntityByHashKey(modelName, hashKeyName, value)`: issue
`models[modelName].query(hashKeyName).eq(value)` (modelled by the `store`
function giving the callback outcome for each issued query), resolve with
`result[0]` when `result && result.length > 0`, reject with `NotFoundError`
otherwise, and propagate a store error verbatim. -/
def getEntityByHashKey {ε α : Type} (store : String → String → String → StoreResp ε (List α))
    (modelName hashKeyName value : String) : Except (ApiError ε) α :=
  match store modelName hashKeyName value with
  | .error err => .error (.store err)
  | .ok (some (x :: _)) => .ok x
  | .ok (some []) =>
      .error (.notFound ("Can not find " ++ modelName ++ " with " ++ hashKeyName ++ ": " ++ value))
  | .ok none =>
      .error (.notFound ("Can not find " ++ modelName ++ " with " ++ hashKeyName ++ ": " ++ value))

/-- Result of a dynamoose `scan`: an array of items carrying a `count`
property. -/
structure ScanResult (α : Type) where
  count : Nat
  items : List α

/-- Embeds `scan(modelName, scanParams)`: on store success resolve with
`result.count === 0 ? [] : result`, on store error reject verbatim. -/
def scan {ε α π : Type} (store : String → π → Except ε (ScanResult α))
    (modelName : String) (scanParams : π) : Except ε (List α) :=
  match store modelName scanParams with
  | .error err => .error err
  | .ok result => .ok (if result.count = 0 then [] else result.items)

/-- Embeds `query(modelName, queryParams)`: on store success resolve with
`result || []` (a null result becomes the empty array), on store error
reject verbatim. -/
def query {ε α π : Type} (store : String → π → StoreResp ε (List α))
    (modelName : String) (queryParams : π) : Except ε (List α) :=
  match store modelName queryParams with
  | .error err => .error err
  | .ok result => .ok (result.getD [])

/-- Embeds `getMemberByHandle(handle)`: issue
`models.Member.query('handleLower').eq(handle.toLowerCase())` (the `store`
function gives the callback outcome for each key value), resolve with
`result[0]` when `result && result.length > 0`, reject with `NotFoundError`
otherwise. -/
def getMemberByHandle {ε μ : Type} (store : String → StoreResp ε (List μ))
    (handle : String) : Except (ApiError ε) μ :=
  match store (jsToLower handle) with
  | .error err => .error (.store err)
  | .ok (some (x :: _)) => .ok x
  | .ok (some []) =>
      .error (.notFound ("Member with handle: \"" ++ handle ++ "\" doesn't exist"))
  | .ok none =>
      .error (.notFound ("Member with handle: \"" ++ handle ++ "\" doesn't exist"))

/-- Classifies an outcome as a `NotFoundError` rejection. -/
def isNotFound {ε α : Type} : Except (ApiError ε) α → Bool
  | .error (.notFound _) => true
  | _ => false

/-- C1: for every collection name, key name and key value,
`getEntityByHashKey` rejects with `NotFound` when the backing query returns
zero matching rows (a null result or an empty row list), and when the query
returns one or more rows it resolves with exactly the first row and never
raises for that input. -/
theorem getEntityByHashKey_spec {ε α : Type}
    (store : String → String → String → StoreResp ε (List α))
    (modelName hashKeyName value : String) :
    (store modelName hashKeyName value = .ok none ∨
        store modelName hashKeyName value = .ok (some []) →
      ∃ msg, getEntityByHashKey store modelName hashKeyName value = .error (.notFound msg)) ∧
    (∀ x xs, store modelName hashKeyName value = .ok (some (x :: xs)) →
      getEntityByHashKey store modelName hashKeyName value = .ok x) := by
  constructor
  · rintro (h | h) <;>
      exact ⟨"Can not find " ++ modelName ++ " with " ++ hashKeyName ++ ": " ++ value,
        by simp [getEntityByHashKey, h]⟩
  · intro x xs h
    simp [getEntityByHashKey, h]

/-- Witness for C1 at a concrete store: a query returning rows `[7, 8]`
resolves with the first row `7`. -/
theorem getEntityByHashKey_spec_witness :
    getEntityByHashKey (fun _ _ _ => (.ok (some [7, 8]) : StoreResp Unit (List Nat)))
      "Member" "userId" "123" = .ok 7 :=
  (getEntityByHashKey_spec (fun _ _ _ => .ok (some [7, 8])) "Member" "userId" "123").2 7 [8] rfl

/-- C8: whenever the underlying store call succeeds, `scan` and `query`
resolve with a list (never a null result): zero matches give the empty
list, and otherwise the store's own result list is returned. -/
theorem scan_query_no_null {ε α π : Type}
    (storeS : String → π → Except ε (ScanResult α))
    (storeQ : String → π → StoreResp ε (List α))
    (modelName : String) (params : π) :
    (∀ r, storeS modelName params = .ok r →
      scan storeS modelName params = .ok (if r.count = 0 then [] else r.items)) ∧
    (∀ r, storeS modelName params = .ok r → r.count = 0 →
      scan storeS modelName params = .ok []) ∧
    (storeQ modelName params = .ok none → query storeQ modelName params = .ok []) ∧
    (∀ rows, storeQ modelName params = .ok (some rows) →
      query storeQ modelName params = .ok rows) := by
  refine ⟨?_, ?_, ?_, ?_⟩
  · intro r h; simp [scan, h]
  · intro r h hc; simp [scan, h, hc]
  · intro h; simp [query, h, Option.getD]
  · intro rows h; simp [query, h, Option.getD]

/-- Witness for C8 at concrete stores: a scan whose result has count `0`
resolves with `[]`, and a query whose result is null resolves with `[]`. -/
theorem scan_query_no_null_witness :
    scan (fun _ _ => (.ok ⟨0, []⟩ : Except Unit (ScanResult Nat))) "Member" () = .ok [] ∧
    query (fun _ _ => (.ok none : StoreResp Unit (List Nat))) "Member" () = .ok [] :=
  ⟨(scan_query_no_null (fun _ _ => .ok ⟨0, []⟩) (fun _ _ => .ok none) "Member" ()).2.1
      ⟨0, []⟩ rfl rfl,
   (scan_query_no_null (fun _ _ => (.ok ⟨0, []⟩ : Except Unit (ScanResult Nat)))
      (fun _ _ => .ok none) "Member" ()).2.2.1 rfl⟩

/-- C10: `getMemberByHandle` lower-cases its argument before querying the
`handleLower` key, so two handles with the same lower-casing issue the
identical lookup: they resolve with the same member on success and are
rejected as `NotFound` under exactly the same store outcomes; zero matches
reject with `NotFound`. -/
theorem getMemberByHandle_case_insensitive {ε μ : Type}
    (store : String → StoreResp ε (List μ)) (h1 h2 : String)
    (hlow : jsToLower h1 = jsToLower h2) :
    (∀ m, getMemberByHandle store h1 = .ok m ↔ getMemberByHandle store h2 = .ok m) ∧
    (isNotFound (getMemberByHandle store h1) = isNotFound (getMemberByHandle store h2)) ∧
    (store (jsToLower h1) = .ok none ∨ store (jsToLower h1) = .ok (some []) →
      isNotFound (getMemberByHandle store h1) = true) := by
  refine ⟨?_, ?_, ?_⟩
  · intro m
    unfold getMemberByHandle
    rw [hlow]
    rcases store (jsToLower h2) with e | r
    · simp
    · rcases r with _ | ⟨_ | ⟨x, xs⟩⟩ <;> simp
  · unfold getMemberByHandle
    rw [hlow]
    rcases store (jsToLower h2) with e | r
    · simp [isNotFound]
    · rcases r with _ | ⟨_ | ⟨x, xs⟩⟩ <;> simp [isNotFound]
  · rintro (h | h) <;> simp [getMemberByHandle, h, isNotFound]

/-- Witness for C10 at a concrete store holding one member under key
`"tonyj"`: the handles `"TonyJ"` and `"tonyJ"` resolve identically. -/
theorem getMemberByHandle_case_insensitive_witness :
    getMemberByHandle (fun k => (if k = "tonyj" then .ok (some [42]) else .ok (some []) :
      StoreResp Unit (List Nat))) "TonyJ" = .ok 42 ∧
    getMemberByHandle (fun k => (if k = "tonyj" then .ok (some [42]) else .ok (some []) :
      StoreResp Unit (List Nat))) "tonyJ" = .ok 42 := by
  have h := getMemberByHandle_case_insensitive
    (fun k => (if k = "tonyj" then .ok (some [42]) else .ok (some []) : StoreResp Unit (List Nat)))
    "TonyJ" "tonyJ" (by decide)
  have hk : jsToLower "tonyJ" = "tonyj" := by decide
  have h2 : getMemberByHandle
      (fun k => (if k = "tonyj" then .ok (some [42]) else .ok (some []) :
        StoreResp Unit (List Nat))) "tonyJ" = .ok 42 := by
    simp [getMemberByHandle, hk]
  exact ⟨(h.1 42).mpr h2, h2⟩

/-- The acting identity built once per request from authentication claims.
An absent role list and an absent handle are modelled by `none`. -/
structure Principal where
  roles : Option (List String)
  isMachine : Bool
  handle : Option String

/-- Member profile data as consumed by the authorization check: the stored
lower-cased handle. -/
structure Member where
  handleLower : String

/-- Embeds `hasAdminRole(authUser)`: `!authUser.roles` short-circuits to
`false` when the role list is absent; otherwise the double loop returns
`true` on the first user role whose lower-casing equals the lower-casing of
a configured admin role.  The fixed set `constants.ADMIN_ROLES` lives
outside this module and is the `adminRoles` parameter. -/
def hasAdminRole (adminRoles : List String) (authUser : Principal) : Bool :=
  match authUser.roles with
  | none => false
  | some rs => rs.any fun r => adminRoles.any fun a => jsToLower r == jsToLower a

/-- Embeds `canManageMember(currentUser, member)` including JavaScript
truthiness: a null `currentUser` is falsy, and so is an empty-string
`currentUser.handle`; the function value is the truthiness of the returned
expression. -/
def canManageMember (adminRoles : List String) (currentUser : Option Principal)
    (member : Member) : Bool :=
  match currentUser with
  | none => false
  | some u =>
      u.isMachine || hasAdminRole adminRoles u ||
        (match u.handle with
         | none => false
         | some h => h != "" && (jsToLower h == member.handleLower))

/-- The claim's reading of `canManageMember`: machine actor, admin role, or
a handle whose lower-casing equals the member's stored lower-cased handle,
with a null principal mapped to false. -/
def canManageMemberClaim (adminRoles : List String) (currentUser : Option Principal)
    (member : Member) : Prop :=
  match currentUser with
  | none => False
  | some u =>
      u.isMachine = true ∨ hasAdminRole adminRoles u = true ∨
        ∃ h, u.handle = some h ∧ jsToLower h = member.handleLower

/-- C9: `hasAdminRole` is true exactly when some element of the principal's
role list lower-cases to the lower-casing of some configured admin role;
an absent or empty role list gives false. -/
theorem hasAdminRole_spec (adminRoles : List String) (authUser : Principal) :
    (hasAdminRole adminRoles authUser = true ↔
      ∃ r ∈ authUser.roles.getD [], ∃ a ∈ adminRoles, jsToLower r = jsToLower a) ∧
    (authUser.roles = none ∨ authUser.roles = some [] →
      hasAdminRole adminRoles authUser = false) := by
  constructor
  · cases h : authUser.roles with
    | none => simp [hasAdminRole, h]
    | some rs => simp [hasAdminRole, h, List.any_eq_true]
  · rintro (h | h) <;> simp [hasAdminRole, h]

/-- Witness for C9: the role `"Admin"` matches an admin set containing
`"admin"`, and a principal with an absent role list is not an admin. -/
theorem hasAdminRole_spec_witness :
    hasAdminRole ["admin"] ⟨some ["Admin"], false, none⟩ = true ∧
    hasAdminRole ["admin"] ⟨none, false, none⟩ = false := by
  constructor
  · exact (hasAdminRole_spec ["admin"] ⟨some ["Admin"], false, none⟩).1.mpr
      ⟨"Admin", by decide, "admin", by decide, by decide⟩
  · exact (hasAdminRole_spec ["admin"] ⟨none, false, none⟩).2 (Or.inl rfl)

/-- C3 counterexample: a non-machine, non-admin principal whose handle is
the empty string matches a member whose stored lower-cased handle is the
empty string under the claim's three-way disjunction, yet the code returns
false because `currentUser.handle` (the empty string) is falsy. -/
theorem canManageMember_claim_counterexample :
    canManageMemberClaim [] (some ⟨some [], false, some ""⟩) ⟨""⟩ ∧
    canManageMember [] (some ⟨some [], false, some ""⟩) ⟨""⟩ = false := by
  constructor
  · exact Or.inr (Or.inr ⟨"", rfl, rfl⟩)
  · rfl

/-- C3 amended: `canManageMember` is true exactly when the principal is
present and is a machine actor, or has an admin role, or carries a
non-empty handle whose lower-casing equals the member's stored lower-cased
handle; a null principal gives false. -/
theorem canManageMember_spec (adminRoles : List String) (currentUser : Option Principal)
    (member : Member) :
    canManageMember adminRoles currentUser member = true ↔
      ∃ u, currentUser = some u ∧
        (u.isMachine = true ∨ hasAdminRole adminRoles u = true ∨
          ∃ h, u.handle = some h ∧ h ≠ "" ∧ jsToLower h = member.handleLower) := by
  cases currentUser with
  | none => simp [canManageMember]
  | some u =>
    cases hh : u.handle with
    | none => simp [canManageMember, hh]
    | some h => simp [canManageMember, hh, Bool.and_eq_true, bne_iff_ne, and_assoc, or_assoc]

/-- A stored entity as a field map: each field name holds an optional
value. -/
def Entity (ν : Type) : Type := String → Option ν

/-- Embeds the mutation loop of `update(dbItem, data)`:
`Object.keys(data).forEach(key => dbItem[key] = data[key])`, with the
key-value pairs of `data` listed in `Object.keys` order. -/
def applyData {ν : Type} : Entity ν → List (String × ν) → Entity ν
  | dbItem, [] => dbItem
  | dbItem, kv :: rest => applyData (fun k => if k = kv.1 then some kv.2 else dbItem k) rest

/-- Embeds `update(dbItem, data)`: mutate the item field-wise, then call
`dbItem.save(cb)` (modelled by `save` giving the callback outcome for the
mutated item); reject with the store's write error verbatim, otherwise
resolve with the mutated item. -/
def update {ν ε : Type} (save : Entity ν → Option ε) (dbItem : Entity ν)
    (data : List (String × ν)) : Except ε (Entity ν) :=
  let merged := applyData dbItem data
  match save merged with
  | some err => .error err
  | none => .ok merged

/-- Fields not named by `data` keep their previous value. -/
theorem applyData_not_mem {ν : Type} (data : List (String × ν)) :
    ∀ (dbItem : Entity ν) (k : String),
      k ∉ data.map Prod.fst → applyData dbItem data k = dbItem k := by
  induction data with
  | nil => intro dbItem k _; rfl
  | cons kv rest ih =>
    intro dbItem k h
    simp only [List.map_cons, List.mem_cons, not_or] at h
    simp only [applyData]
    rw [ih _ k h.2]
    simp [h.1]

/-- On fields named by `data` the merge result does not depend on the
starting entity. -/
theorem applyData_mem_indep {ν : Type} (data : List (String × ν)) :
    ∀ (d1 d2 : Entity ν) (k : String), k ∈ data.map Prod.fst →
      applyData d1 data k = applyData d2 data k := by
  induction data with
  | nil => intro d1 d2 k h; simp at h
  | cons kv rest ih =>
    intro d1 d2 k h
    by_cases hr : k ∈ rest.map Prod.fst
    · simp only [applyData]
      exact ih _ _ k hr
    · have hk : k = kv.1 := by
        simp only [List.map_cons, List.mem_cons] at h
        tauto
      simp only [applyData]
      rw [applyData_not_mem rest _ k hr, applyData_not_mem rest _ k hr]
      simp [hk]

/-- Fields named by `data` (with pairwise distinct keys) receive the value
from `data`. -/
theorem applyData_lookup {ν : Type} (data : List (String × ν)) :
    ∀ (dbItem : Entity ν) (k : String) (v : ν),
      (data.map Prod.fst).Nodup → (k, v) ∈ data → applyData dbItem data k = some v := by
  induction data with
  | nil => intro _ _ _ _ h; simp at h
  | cons kv rest ih =>
    intro dbItem k v hnd hmem
    obtain ⟨k1, v1⟩ := kv
    simp only [List.map_cons, List.nodup_cons] at hnd
    rcases List.mem_cons.mp hmem with heq | hmem2
    · obtain ⟨hk, hv⟩ := Prod.mk.injEq .. ▸ heq
      subst hk hv
      have hkr : k ∉ rest.map Prod.fst := hnd.1
      simp only [applyData]
      rw [applyData_not_mem rest _ k hkr]
      simp
    · simp only [applyData]
      exact ih _ k v hnd.2 hmem2

/-- C4: `update` performs a field-wise shallow merge before persisting:
every key of `data` overwrites the field of the same name, every other
field keeps its previous value, a failing save rejects with the store's
write error verbatim, and a successful save resolves with the merged
entity. -/
theorem update_spec {ν ε : Type} (save : Entity ν → Option ε) (dbItem : Entity ν)
    (data : List (String × ν)) (hnd : (data.map Prod.fst).Nodup) :
    (∀ merged, update save dbItem data = .ok merged →
      (∀ k v, (k, v) ∈ data → merged k = some v) ∧
      (∀ k, k ∉ data.map Prod.fst → merged k = dbItem k)) ∧
    (∀ err, save (applyData dbItem data) = some err → update save dbItem data = .error err) ∧
    (save (applyData dbItem data) = none → update save dbItem data = .ok (applyData dbItem data)) := by
  refine ⟨?_, ?_, ?_⟩
  · intro merged hok
    have hmerged : merged = applyData dbItem data := by
      rcases hs : save (applyData dbItem data) with _ | err
      · simp [update, hs] at hok
        exact hok.symm
      · simp [update, hs] at hok
    subst hmerged
    exact ⟨fun k v hkv => applyData_lookup data dbItem k v hnd hkv,
      fun k hk => applyData_not_mem data dbItem k hk⟩
  · intro err hs
    simp [update, hs]
  · intro hs
    simp [update, hs]

/-- Witness for C4 at a concrete update: merging `{a: 1, b: 2}` into the
empty entity overwrites `a` and leaves the unnamed field `c` absent. -/
theorem update_spec_witness :
    ∃ merged : Entity Nat,
      update (fun _ => (none : Option Unit)) (fun _ => none) [("a", 1), ("b", 2)] = .ok merged ∧
      merged "a" = some 1 ∧ merged "c" = none := by
  have h := update_spec (fun _ => (none : Option Unit)) (fun _ : String => (none : Option Nat))
    [("a", 1), ("b", 2)] (by decide)
  refine ⟨applyData (fun _ => none) [("a", 1), ("b", 2)], h.2.2 rfl, ?_, ?_⟩
  · exact (h.1 _ (h.2.2 rfl)).1 "a" 1 (by decide)
  · exact (h.1 _ (h.2.2 rfl)).2 "c" (by decide)

/-- C5: the merge of `update` is idempotent under repeated application with
the same data: merging twice yields the same field values as merging once,
and chaining two successful updates returns the same entity as one. -/
theorem update_idempotent {ν : Type} (dbItem : Entity ν) (data : List (String × ν)) :
    (∀ k, applyData (applyData dbItem data) data k = applyData dbItem data k) ∧
    ((update (fun _ => (none : Option Unit)) dbItem data).bind
        (fun it => update (fun _ => none) it data) =
      update (fun _ => (none : Option Unit)) dbItem data) := by
  have hpw : ∀ k, applyData (applyData dbItem data) data k = applyData dbItem data k := by
    intro k
    by_cases h : k ∈ data.map Prod.fst
    · exact applyData_mem_indep data (applyData dbItem data) dbItem k h
    · rw [applyData_not_mem data (applyData dbItem data) k h]
  refine ⟨hpw, ?_⟩
  have hfun : applyData (applyData dbItem data) data = applyData dbItem data := funext hpw
  simp [update, Except.bind, hfun]

/-- A string is empty exactly when its length is zero. -/
theorem string_length_eq_zero_iff (s : String) : s.length = 0 ↔ s = "" := by
  cases s with
  | mk data =>
    constructor
    · intro h
      have hd : data = [] := List.eq_nil_of_length_eq_zero h
      rw [hd]
    · intro h
      rw [h]
      decide

/-- Embeds the guard `allowedValues && !_.includes(allowedValues, value)`:
a null `allowedValues` is falsy, so the guard only fires when a list is
provided and the value is not in it. -/
def outsideAllowed (allowedValues : Option (List String)) (value : String) : Bool :=
  match allowedValues with
  | some av => !av.contains value
  | none => false

/-- The guard is true exactly when an allowed list is provided and the
value lies outside it. -/
theorem outsideAllowed_eq_true_iff (allowedValues : Option (List String)) (value : String) :
    outsideAllowed allowedValues value = true ↔
      ∃ av, allowedValues = some av ∧ value ∉ av := by
  cases allowedValues with
  | none => simp [outsideAllowed]
  | some av => simp [outsideAllowed]

/-- The guard is false exactly when every provided allowed list contains
the value. -/
theorem outsideAllowed_eq_false_iff (allowedValues : Option (List String)) (value : String) :
    outsideAllowed allowedValues value = false ↔
      ∀ av, allowedValues = some av → value ∈ av := by
  cases allowedValues with
  | none => simp [outsideAllowed]
  | some av => simp [outsideAllowed]

/-- The property names of `Object.prototype`.  A fresh JavaScript object
literal `{}` inherits all of them, and each reads as a truthy value (a
function, or for `__proto__` the prototype object itself) before any
assignment to the object. -/
def objectPrototypeKeys : List String :=
  ["constructor", "hasOwnProperty", "isPrototypeOf", "propertyIsEnumerable",
    "toLocaleString", "toString", "valueOf", "__proto__",
    "__defineGetter__", "__defineSetter__", "__lookupGetter__", "__lookupSetter__"]

/-- Truthiness of the read `mapping[key]` on an object literal `{}` after
`mapping[v] = true` has run for each `v` in `assigned`: the read consults
own properties first and then the prototype chain, so the assigned keys
and the keys inherited from `Object.prototype` are truthy.  (The loop
below never assigns a key that already reads truthy, so no reachable
assignment targets `__proto__`, whose assignment would not create an own
property.) -/
def jsObjTruthy (assigned : List String) (key : String) : Bool :=
  assigned.contains key || objectPrototypeKeys.contains key

/-- The read is truthy exactly for assigned keys and inherited
`Object.prototype` keys. -/
theorem jsObjTruthy_eq_true_iff (assigned : List String) (key : String) :
    jsObjTruthy assigned key = true ↔ key ∈ assigned ∨ key ∈ objectPrototypeKeys := by
  simp [jsObjTruthy]

/-- Embeds the `_.forEach` validation loop of `parseCommaSeparatedString`:
walk the split values in order carrying the list of keys assigned into the
`mapping` object literal, throwing `BadRequestError` on a value that is
blank after trimming, on a value outside the allowed list, and on a value
for which the read `mapping[value]` is truthy — an already-assigned key or
a key inherited from `Object.prototype`. -/
def checkValues {ε : Type} (allowedValues : Option (List String)) :
    List String → List String → Except (ApiError ε) Unit
  | _, [] => .ok ()
  | seen, value :: rest =>
      if (jsTrim value).length = 0 then .error (.badRequest "Empty value.")
      else if outsideAllowed allowedValues value then
        .error (.badRequest ("Invalid value: " ++ value))
      else if jsObjTruthy seen value then
        .error (.badRequest ("Duplicate values: " ++ value))
      else checkValues allowedValues (value :: seen) rest

/-- Embeds `parseCommaSeparatedString(s, allowedValues)`: a falsy (empty)
input returns null; otherwise split on commas, run the validation loop,
and return the split values unchanged. -/
def parseCommaSeparatedString {ε : Type} (s : String)
    (allowedValues : Option (List String)) : Except (ApiError ε) (Option (List String)) :=
  if s = "" then .ok none
  else
    match checkValues allowedValues [] (jsSplitComma s) with
    | .error err => .error err
    | .ok _ => .ok (some (jsSplitComma s))

/-- The validation loop either succeeds or throws a `BadRequestError`. -/
theorem checkValues_cases {ε : Type} (allowedValues : Option (List String)) :
    ∀ (vs seen : List String),
      checkValues (ε := ε) allowedValues seen vs = .ok () ∨
        ∃ msg, checkValues (ε := ε) allowedValues seen vs = .error (.badRequest msg) := by
  intro vs
  induction vs with
  | nil => intro seen; left; rfl
  | cons v rest ih =>
    intro seen
    simp only [checkValues]
    split_ifs with h1 h2 h3
    · right; exact ⟨_, rfl⟩
    · right; exact ⟨_, rfl⟩
    · right; exact ⟨_, rfl⟩
    · exact ih (v :: seen)

/-- The validation loop succeeds exactly when every value is non-blank
after trimming, inside every provided allowed list, distinct from the
already-assigned keys, outside the inherited `Object.prototype` keys, and
the values are pairwise distinct. -/
theorem checkValues_ok_iff {ε : Type} (allowedValues : Option (List String)) :
    ∀ (vs seen : List String),
      checkValues (ε := ε) allowedValues seen vs = .ok () ↔
        ((∀ v ∈ vs, jsTrim v ≠ "" ∧ (∀ av, allowedValues = some av → v ∈ av) ∧
            v ∉ seen ∧ v ∉ objectPrototypeKeys) ∧
          vs.Nodup) := by
  intro vs
  induction vs with
  | nil =>
    intro seen
    simp [checkValues]
  | cons v rest ih =>
    intro seen
    simp only [checkValues]
    split_ifs with h1 h2 h3
    · rw [string_length_eq_zero_iff] at h1
      simp [h1]
    · obtain ⟨av, ha, hnin⟩ := (outsideAllowed_eq_true_iff allowedValues v).mp h2
      constructor
      · intro h; simp at h
      · rintro ⟨hall, -⟩
        exact absurd ((hall v (List.mem_cons_self v rest)).2.1 av ha) hnin
    · rcases (jsObjTruthy_eq_true_iff seen v).mp h3 with hv | hv
      · constructor
        · intro h; simp at h
        · rintro ⟨hall, -⟩
          exact absurd hv (hall v (List.mem_cons_self v rest)).2.2.1
      · constructor
        · intro h; simp at h
        · rintro ⟨hall, -⟩
          exact absurd hv (hall v (List.mem_cons_self v rest)).2.2.2
    · rw [ih (v :: seen)]
      rw [string_length_eq_zero_iff] at h1
      have h2f : ∀ av, allowedValues = some av → v ∈ av :=
        (outsideAllowed_eq_false_iff allowedValues v).mp (Bool.not_eq_true _ ▸ h2)
      obtain ⟨h3s, h3p⟩ := not_or.mp ((not_congr (jsObjTruthy_eq_true_iff seen v)).mp h3)
      constructor
      · rintro ⟨hrest, hnd⟩
        have hvr : v ∉ rest := fun hvrest =>
          (hrest v hvrest).2.2.1 (List.mem_cons_self v seen)
        refine ⟨?_, List.nodup_cons.mpr ⟨hvr, hnd⟩⟩
        intro u hu
        rcases List.mem_cons.mp hu with rfl | hu2
        · exact ⟨h1, h2f, h3s, h3p⟩
        · refine ⟨(hrest u hu2).1, (hrest u hu2).2.1, ?_, (hrest u hu2).2.2.2⟩
          intro huseen
          exact (hrest u hu2).2.2.1 (List.mem_cons_of_mem v huseen)
      · rintro ⟨hall, hnd⟩
        obtain ⟨hvr, hndr⟩ := List.nodup_cons.mp hnd
        refine ⟨?_, hndr⟩
        intro u hu
        have hu3 := hall u (List.mem_cons_of_mem v hu)
        refine ⟨hu3.1, hu3.2.1, ?_, hu3.2.2.2⟩
        intro huvseen
        rcases List.mem_cons.mp huvseen with rfl | huseen
        · exact hvr hu
        · exact hu3.2.2.1 huseen

/-- Failure of the loop over an empty assigned set, as an existential over
the offending value: blank after trimming, outside a provided allowed
list, repeated, or an inherited `Object.prototype` key. -/
theorem parse_fail_cond_iff (allowedValues : Option (List String)) (vs : List String) :
    (¬((∀ v ∈ vs, jsTrim v ≠ "" ∧ (∀ av, allowedValues = some av → v ∈ av) ∧
          v ∉ ([] : List String) ∧ v ∉ objectPrototypeKeys) ∧ vs.Nodup)) ↔
      ∃ v ∈ vs, jsTrim v = "" ∨ (∃ av, allowedValues = some av ∧ v ∉ av) ∨
        1 < vs.count v ∨ v ∈ objectPrototypeKeys := by
  constructor
  · intro h
    by_cases hnd : vs.Nodup
    · have hna : ¬(∀ v ∈ vs, jsTrim v ≠ "" ∧ (∀ av, allowedValues = some av → v ∈ av) ∧
          v ∉ ([] : List String) ∧ v ∉ objectPrototypeKeys) := fun hall => h ⟨hall, hnd⟩
      push_neg at hna
      obtain ⟨v, hv, hbad⟩ := hna
      by_cases htrim : jsTrim v = ""
      · exact ⟨v, hv, Or.inl htrim⟩
      · by_cases hA : ∀ av, allowedValues = some av → v ∈ av
        · exact ⟨v, hv, Or.inr (Or.inr (Or.inr (hbad htrim hA (by simp))))⟩
        · push_neg at hA
          obtain ⟨av, ha, hnin⟩ := hA
          exact ⟨v, hv, Or.inr (Or.inl ⟨av, ha, hnin⟩)⟩
    · rw [List.nodup_iff_count_le_one] at hnd
      push_neg at hnd
      obtain ⟨v, hv⟩ := hnd
      have hmem : v ∈ vs := List.count_pos_iff.mp (by omega)
      exact ⟨v, hmem, Or.inr (Or.inr (Or.inl hv))⟩
  · rintro ⟨v, hv, hbad⟩ ⟨hall, hnd⟩
    rcases hbad with h | ⟨av, ha, hnin⟩ | hcnt | hp
    · exact (hall v hv).1 h
    · exact hnin ((hall v hv).2.1 av ha)
    · rw [List.nodup_iff_count_le_one] at hnd
      exact absurd (hnd v) (by omega)
    · exact (hall v hv).2.2.2 hp

/-- Full behavior of `parseCommaSeparatedString`: null on the empty
string; otherwise it throws exactly when some split element is blank
after trimming, outside a provided allowed list, repeated, or names an
inherited `Object.prototype` key; every throw is a `BadRequestError`; and
otherwise it returns the split elements unchanged. -/
theorem parseCommaSeparatedString_raises_iff {ε : Type} (s : String)
    (allowedValues : Option (List String)) :
    (s = "" → parseCommaSeparatedString (ε := ε) s allowedValues = .ok none) ∧
    (s ≠ "" →
      (((∃ e, parseCommaSeparatedString (ε := ε) s allowedValues = .error e) ↔
          ∃ v ∈ jsSplitComma s,
            jsTrim v = "" ∨ (∃ av, allowedValues = some av ∧ v ∉ av) ∨
              1 < (jsSplitComma s).count v ∨ v ∈ objectPrototypeKeys) ∧
        (∀ e, parseCommaSeparatedString (ε := ε) s allowedValues = .error e →
          ∃ msg, e = .badRequest msg) ∧
        ((¬∃ v ∈ jsSplitComma s,
            jsTrim v = "" ∨ (∃ av, allowedValues = some av ∧ v ∉ av) ∨
              1 < (jsSplitComma s).count v ∨ v ∈ objectPrototypeKeys) →
          parseCommaSeparatedString (ε := ε) s allowedValues =
            .ok (some (jsSplitComma s))))) := by
  constructor
  · intro h
    simp [parseCommaSeparatedString, h]
  · intro hs
    have hok := checkValues_ok_iff (ε := ε) allowedValues (jsSplitComma s) []
    have hcond := parse_fail_cond_iff allowedValues (jsSplitComma s)
    refine ⟨?_, ?_, ?_⟩
    · constructor
      · rintro ⟨e, he⟩
        rw [← hcond]
        intro hcnd
        have : checkValues (ε := ε) allowedValues [] (jsSplitComma s) = .ok () := hok.mpr hcnd
        simp [parseCommaSeparatedString, hs, this] at he
      · intro hcnd
        rcases checkValues_cases (ε := ε) allowedValues (jsSplitComma s) [] with hck | ⟨msg, hck⟩
        · exact absurd (hok.mp hck) (hcond.mpr hcnd)
        · exact ⟨.badRequest msg, by simp [parseCommaSeparatedString, hs, hck]⟩
    · intro e he
      rcases checkValues_cases (ε := ε) allowedValues (jsSplitComma s) [] with hck | ⟨msg, hck⟩
      · simp [parseCommaSeparatedString, hs, hck] at he
      · simp [parseCommaSeparatedString, hs, hck] at he
        exact ⟨msg, he.symm⟩
    · intro hcnd
      have : checkValues (ε := ε) allowedValues [] (jsSplitComma s) = .ok () :=
        hok.mpr (not_not.mp (fun hn => hcnd (hcond.mp hn)))
      simp [parseCommaSeparatedString, hs, this]

/-- C2: the claim states the loop comment’s documented intent (`mapping`
is `used to check duplicate values`), but the read `mapping[value]` on an
object literal consults the prototype chain, so a first occurrence of an
`Object.prototype` member name is already truthy: the code throws
`BadRequestError "Duplicate values: toString"` on input `"toString"` with
no allowed list, although that element is non-blank after trimming and
occurs exactly once, where the claim requires the parse to return
`["toString"]`.  The claim’s own examples still evaluate as documented. -/
theorem parseCommaSeparatedString_bug :
    parseCommaSeparatedString (ε := Unit) "toString" none =
      .error (.badRequest "Duplicate values: toString") ∧
    jsTrim "toString" ≠ "" ∧
    (jsSplitComma "toString").count "toString" = 1 ∧
    jsSplitComma "toString" = ["toString"] ∧
    parseCommaSeparatedString (ε := Unit) "" none = .ok none ∧
    parseCommaSeparatedString (ε := Unit) "a,b" (some ["a", "b"]) = .ok (some ["a", "b"]) ∧
    parseCommaSeparatedString (ε := Unit) "a,a" none =
      .error (.badRequest "Duplicate values: a") :=
  ⟨rfl, by decide, by decide, by decide, rfl, rfl, rfl⟩

/-- The HTTP request data consumed by the pagination helpers: protocol,
`Host` header, base URL, path, and the parsed query parameters in order. -/
structure Request where
  protocol : String
  host : String
  baseUrl : String
  path : String
  query : List (String × String)

/-- The pagination fields of an operation result envelope. -/
structure PageResult where
  page : Nat
  perPage : Nat
  total : Nat

/-- Value of an emitted HTTP response header: the `X-*` headers carry
numbers and the `Link` header carries a string. -/
inductive HVal where
  | num (n : Nat)
  | str (s : String)
deriving DecidableEq

/-- Embeds `Math.ceil(result.total / result.perPage)` on naturals: for
`perPage ≥ 1` the ceiling of the exact quotient is `(total + perPage - 1)
/ perPage`, which is Mathlib's ceiling division on `ℕ`. -/
def totalPagesOf (result : PageResult) : Nat :=
  (result.total + result.perPage - 1) / result.perPage

/-- Embeds `_.assignIn({}, req.query, { page })`: the original query pairs
in插 order with every `page` entry overridden in place, and `page` appended
when absent. -/
def assignPage (q : List (String × String)) (page : Nat) : List (String × String) :=
  if (q.map Prod.fst).contains "page" then
    q.map fun kv => if kv.1 = "page" then ("page", toString page) else kv
  else q ++ [("page", toString page)]

/-- Embeds `querystring.stringify` on the key-value pairs in order
(percent-encoding left abstract). -/
def stringifyQuery (q : List (String × String)) : String :=
  String.intercalate "&" (q.map fun kv => kv.1 ++ "=" ++ kv.2)

/-- Embeds `getPageLink(req, page)`. -/
def getPageLink (req : Request) (page : Nat) : String :=
  req.protocol ++ "://" ++ req.host ++ req.baseUrl ++ req.path ++ "?" ++
    stringifyQuery (assignPage req.query page)

/-- Embeds the `Link` header value built by `setResHeaders`. -/
def linkOf (req : Request) (page totalPages : Nat) : String :=
  let base := "<" ++ getPageLink req 1 ++ ">; rel=\"first\", <" ++
    getPageLink req totalPages ++ ">; rel=\"last\""
  let base2 := if 1 < page then
    base ++ ", <" ++ getPageLink req (page - 1) ++ ">; rel=\"prev\"" else base
  if page < totalPages then
    base2 ++ ", <" ++ getPageLink req (page + 1) ++ ">; rel=\"next\"" else base2

/-- Embeds `setResHeaders(req, res, result)`: the emitted headers as the
sequence of `res.set` calls in source order. -/
def setResHeaders (req : Request) (result : PageResult) : List (String × HVal) :=
  let totalPages := totalPagesOf result
  (if 1 < result.page then [("X-Prev-Page", HVal.num (result.page - 1))] else []) ++
    (if result.page < totalPages then [("X-Next-Page", HVal.num (result.page + 1))] else []) ++
    [("X-Page", HVal.num result.page), ("X-Per-Page", HVal.num result.perPage),
      ("X-Total", HVal.num result.total), ("X-Total-Pages", HVal.num totalPages)] ++
    (if 0 < totalPages then [("Link", HVal.str (linkOf req result.page totalPages))] else [])

/-- Membership normal form for the emitted header list. -/
theorem mem_setResHeaders_iff (req : Request) (result : PageResult) (x : String × HVal) :
    x ∈ setResHeaders req result ↔
      (1 < result.page ∧ x = ("X-Prev-Page", HVal.num (result.page - 1))) ∨
      (result.page < totalPagesOf result ∧ x = ("X-Next-Page", HVal.num (result.page + 1))) ∨
      x = ("X-Page", HVal.num result.page) ∨
      x = ("X-Per-Page", HVal.num result.perPage) ∨
      x = ("X-Total", HVal.num result.total) ∨
      x = ("X-Total-Pages", HVal.num (totalPagesOf result)) ∨
      (0 < totalPagesOf result ∧
        x = ("Link", HVal.str (linkOf req result.page (totalPagesOf result)))) := by
  by_cases h1 : 1 < result.page <;> by_cases h2 : result.page < totalPagesOf result <;>
    by_cases h3 : 0 < totalPagesOf result <;>
      simp [setResHeaders, h1, h2, h3, List.mem_append, or_assoc]

/-- C6 counterexample: a valid envelope (`page = 2 ≥ 1`, `perPage = 10 ≥
1`) with `total = 0` still gets an `X-Prev-Page` header, against the
claim's blanket `total = 0 ⇒ no prev/next headers`. -/
theorem setResHeaders_total_zero_counterexample :
    (1 ≤ (⟨2, 10, 0⟩ : PageResult).page ∧ 1 ≤ (⟨2, 10, 0⟩ : PageResult).perPage ∧
      (⟨2, 10, 0⟩ : PageResult).total = 0) ∧
    ("X-Prev-Page", HVal.num 1) ∈
      setResHeaders ⟨"http", "example.com", "", "/members", []⟩ ⟨2, 10, 0⟩ := by
  decide

/-- C6 amended: the four `X-*` headers are always emitted with
`X-Total-Pages` the ceiling of `total / perPage`, `X-Prev-Page = page - 1`
is emitted iff `page > 1`, `X-Next-Page = page + 1` is emitted iff
`page < totalPages`; concretely for `total = 45`, `perPage = 10` page `1`
has no prev and next `2`, page `5` has prev `4` and no next; and
`total = 0` gives `X-Total-Pages: 0`, no next header, no `Link` header,
and no prev header when `page = 1` (prev is still `page - 1` whenever
`page > 1`, per the unconditional rule above). -/
theorem setResHeaders_spec :
    (∀ (req : Request) (result : PageResult), 1 ≤ result.page → 1 ≤ result.perPage →
      ("X-Page", HVal.num result.page) ∈ setResHeaders req result ∧
      ("X-Per-Page", HVal.num result.perPage) ∈ setResHeaders req result ∧
      ("X-Total", HVal.num result.total) ∈ setResHeaders req result ∧
      ("X-Total-Pages", HVal.num (totalPagesOf result)) ∈ setResHeaders req result ∧
      totalPagesOf result = result.total ⌈/⌉ result.perPage ∧
      (∀ c, totalPagesOf result ≤ c ↔ result.total ≤ result.perPage * c) ∧
      (("X-Prev-Page", HVal.num (result.page - 1)) ∈ setResHeaders req result ↔
        1 < result.page) ∧
      (("X-Next-Page", HVal.num (result.page + 1)) ∈ setResHeaders req result ↔
        result.page < totalPagesOf result)) ∧
    (∀ req : Request,
      totalPagesOf ⟨1, 10, 45⟩ = 5 ∧
      (∀ v, ("X-Prev-Page", v) ∉ setResHeaders req ⟨1, 10, 45⟩) ∧
      ("X-Next-Page", HVal.num 2) ∈ setResHeaders req ⟨1, 10, 45⟩ ∧
      ("X-Prev-Page", HVal.num 4) ∈ setResHeaders req ⟨5, 10, 45⟩ ∧
      (∀ v, ("X-Next-Page", v) ∉ setResHeaders req ⟨5, 10, 45⟩)) ∧
    (∀ (req : Request) (result : PageResult), result.total = 0 → 1 ≤ result.perPage →
      totalPagesOf result = 0 ∧
      ("X-Total-Pages", HVal.num 0) ∈ setResHeaders req result ∧
      (∀ v, ("X-Next-Page", v) ∉ setResHeaders req result) ∧
      (∀ v, ("Link", v) ∉ setResHeaders req result) ∧
      (result.page = 1 → ∀ v, ("X-Prev-Page", v) ∉ setResHeaders req result)) := by
  refine ⟨?_, ?_, ?_⟩
  · intro req result hp hpp
    refine ⟨?_, ?_, ?_, ?_, rfl, ?_, ?_, ?_⟩
    · simp [mem_setResHeaders_iff]
    · simp [mem_setResHeaders_iff]
    · simp [mem_setResHeaders_iff]
    · simp [mem_setResHeaders_iff]
    · intro c
      exact ceilDiv_le_iff_le_mul hpp
    · simp [mem_setResHeaders_iff]
    · simp [mem_setResHeaders_iff]
  · intro req
    refine ⟨by decide, ?_, ?_, ?_, ?_⟩
    · intro v
      simp [mem_setResHeaders_iff, totalPagesOf]
    · simp [mem_setResHeaders_iff, totalPagesOf]
    · simp [mem_setResHeaders_iff, totalPagesOf]
    · intro v
      simp [mem_setResHeaders_iff, totalPagesOf]
  · intro req result htotal hpp
    have h0 : totalPagesOf result = 0 := by
      simp only [totalPagesOf, htotal]
      apply Nat.div_eq_of_lt
      omega
    refine ⟨h0, ?_, ?_, ?_, ?_⟩
    · have := mem_setResHeaders_iff req result ("X-Total-Pages", HVal.num (totalPagesOf result))
      rw [h0] at this
      simp [this]
    · intro v
      simp [mem_setResHeaders_iff, h0]
    · intro v
      simp [mem_setResHeaders_iff, h0]
    · intro hpage v
      simp [mem_setResHeaders_iff, h0, hpage]

/-- Witness for C6 at a concrete request and envelope: page `1` of `45`
results at `10` per page carries `X-Next-Page: 2`. -/
theorem setResHeaders_spec_witness :
    ("X-Next-Page", HVal.num 2) ∈
      setResHeaders ⟨"http", "example.com", "", "/members", []⟩ ⟨1, 10, 45⟩ :=
  (setResHeaders_spec.2.1 ⟨"http", "example.com", "", "/members", []⟩).2.2.1

/-- C7: whenever `totalPages > 0` the `Link` header is emitted; its value
is the `rel="first"` and `rel="last"` anchors at pages `1` and
`totalPages`, followed by a `rel="prev"` anchor at `page - 1` exactly when
`page > 1` and a `rel="next"` anchor at `page + 1` exactly when
`page < totalPages`; and every anchor URL is the original request's query
with exactly the `page` parameter overridden and every other parameter
preserved verbatim. -/
theorem getPageLink_spec :
    (∀ (req : Request) (result : PageResult), 0 < totalPagesOf result →
      ("Link", HVal.str (linkOf req result.page (totalPagesOf result))) ∈
        setResHeaders req result) ∧
    (∀ (req : Request) (page totalPages : Nat),
      linkOf req page totalPages =
        "<" ++ getPageLink req 1 ++ ">; rel=\"first\", <" ++ getPageLink req totalPages ++
            ">; rel=\"last\"" ++
          (if 1 < page then ", <" ++ getPageLink req (page - 1) ++ ">; rel=\"prev\"" else "") ++
          (if page < totalPages then ", <" ++ getPageLink req (page + 1) ++ ">; rel=\"next\""
            else "")) ∧
    (∀ (req : Request) (p : Nat),
      getPageLink req p =
        req.protocol ++ "://" ++ req.host ++ req.baseUrl ++ req.path ++ "?" ++
          stringifyQuery (assignPage req.query p) ∧
      ("page", toString p) ∈ assignPage req.query p ∧
      (∀ kv ∈ req.query, kv.1 ≠ "page" → kv ∈ assignPage req.query p) ∧
      (∀ kv ∈ assignPage req.query p, kv ∈ req.query ∨ kv = ("page", toString p))) := by
  refine ⟨?_, ?_, ?_⟩
  · intro req result htp
    simp [mem_setResHeaders_iff, htp]
  · intro req page totalPages
    simp only [linkOf]
    by_cases hp : 1 < page <;> by_cases hn : page < totalPages <;>
      simp only [hp, hn, if_true, if_false, String.append_assoc, String.append_empty]
  · intro req p
    refine ⟨rfl, ?_, ?_, ?_⟩
    · by_cases hc : (req.query.map Prod.fst).contains "page"
      · rw [assignPage, if_pos hc]
        have hmem : "page" ∈ req.query.map Prod.fst := by simpa using hc
        obtain ⟨kv, hkv, hfst⟩ := List.mem_map.mp hmem
        exact List.mem_map.mpr ⟨kv, hkv, by simp [hfst]⟩
      · rw [assignPage, if_neg hc]
        simp
    · intro kv hkv hne
      by_cases hc : (req.query.map Prod.fst).contains "page"
      · rw [assignPage, if_pos hc]
        exact List.mem_map.mpr ⟨kv, hkv, by simp [hne]⟩
      · rw [assignPage, if_neg hc]
        exact List.mem_append_left _ hkv
    · intro kv hkv
      by_cases hc : (req.query.map Prod.fst).contains "page"
      · rw [assignPage, if_pos hc] at hkv
        obtain ⟨kv0, hkv0, heq⟩ := List.mem_map.mp hkv
        by_cases h0 : kv0.1 = "page"
        · rw [if_pos h0] at heq
          exact Or.inr heq.symm
        · rw [if_neg h0] at heq
          exact Or.inl (heq ▸ hkv0)
      · rw [assignPage, if_neg hc] at hkv
        rcases List.mem_append.mp hkv with h | h
        · exact Or.inl h
        · exact Or.inr (by simpa using h)

/-- Witness for C7 at a concrete request: page `1` of `5` pages emits the
`Link` header, and the anchor query for page `2` contains the overridden
`page` parameter. -/
theorem getPageLink_spec_witness :
    ("Link", HVal.str (linkOf ⟨"http", "example.com", "", "/members", [("perPage", "10")]⟩ 1
        (totalPagesOf ⟨1, 10, 45⟩))) ∈
      setResHeaders ⟨"http", "example.com", "", "/members", [("perPage", "10")]⟩ ⟨1, 10, 45⟩ ∧
    ("page", toString 2) ∈
      assignPage (Request.query ⟨"http", "example.com", "", "/members", [("perPage", "10")]⟩) 2 :=
  ⟨getPageLink_spec.1 ⟨"http", "example.com", "", "/members", [("perPage", "10")]⟩ ⟨1, 10, 45⟩
      (by decide),
   (getPageLink_spec.2.2 ⟨"http", "example.com", "", "/members", [("perPage", "10")]⟩ 2).2.1⟩
